import Mathlib

/-!
Shallow embedding of the arch-installer install/uninstall manifest engine
(src/main.rs) and verification of its specified properties.

Modelling conventions:
* Absolute filesystem paths are lists of components (`[]` is the root `/`).
* The filesystem is a finite map from paths to opaque file contents (`Nat`),
  plus a set of existing directories.  `locked` paths model files or
  directories whose deletion fails with an OS error (permission / busy file);
  `unreadable` directories model directories whose entries cannot be listed.
* The byte-sniffing oracle (the `infer` crate) is a parameter
  `sniff : Nat → Option String` returning a MIME type for a file content.
* Console output is modelled as an `Event` trace; installer errors
  (`anyhow::bail!` and `?`-propagated I/O errors) are an `Err` value
  returned next to the state reached when the operation stopped.
* The per-package manifest ("log file") store is modelled as an association
  list from package name to the recorded destination paths, following the
  spec's Manifest Store abstraction.
-/

namespace ArchInstaller

/-- Absolute filesystem path, as a list of components; `[]` is the root. -/
abbrev FPath := List String

/-- Rust `str::split(sep)`: the groups of characters between separators. -/
def rustSplitChar (sep : Char) : List Char → List (List Char)
  | [] => [[]]
  | c :: rest =>
    if c = sep then [] :: rustSplitChar sep rest
    else
      match rustSplitChar sep rest with
      | [] => [[c]]
      | g :: gs => (c :: g) :: gs

/-- Splitting a string at every `/`, as Rust path parsing does. -/
def splitOnSlash (s : String) : List String :=
  (rustSplitChar '/' s.data).map String.mk

/-- Rust `str::starts_with` on a string pattern. -/
def strStartsWith (s pat : String) : Bool :=
  decide (s.data.take pat.data.length = pat.data)

/-- Rust `str::trim`: strip leading and trailing whitespace. -/
def strTrim (s : String) : String :=
  String.mk (((s.data.dropWhile Char.isWhitespace).reverse.dropWhile Char.isWhitespace).reverse)

/-- Rust `str::to_lowercase`. -/
def strToLower (s : String) : String :=
  String.mk (s.data.map Char.toLower)

/-- Rust `Path::file_name` on Unix: the last path component, unless the path
is empty, the root, or ends in `..`. -/
def rustFileName (p : String) : Option String :=
  let comps := (splitOnSlash p).filter (fun c => decide (c ≠ "" ∧ c ≠ "."))
  match comps.getLast? with
  | none => none
  | some c => if c = ".." then none else some c

/-- `get_package_name` from src/main.rs: the file name's text before the
first hyphen, or "unknown" when the file name cannot be determined. -/
def get_package_name (pkg_path : String) : String :=
  let file_name := (rustFileName pkg_path).getD "unknown"
  match rustSplitChar '-' file_name.data with
  | [] => "unknown"
  | g :: _ => String.mk g

/-- Rust `Path::extension` on a file name: the portion after the last `.`,
none when there is no `.` or the only `.` is the leading character. -/
def rustExtension (name : String) : Option String :=
  let cs := name.data
  let extRev := cs.reverse.takeWhile (fun c => decide (c ≠ '.'))
  if extRev.length = cs.length then none
  else if cs.length - extRev.length - 1 = 0 then none
  else some (String.mk extRev.reverse)

/-- `path.extension().map(|e| e == ex).unwrap_or(false)` on the final
component of a component-list path. -/
def extMatches (p : FPath) (ex : String) : Bool :=
  match rustExtension (p.getLastD "") with
  | some x => x == ex
  | none => false

/-- Turn an absolute path string into its list of components. -/
def pathComps (s : String) : FPath := (splitOnSlash s).filter (fun c => decide (c ≠ ""))

/-- The privilege predicate of install_files/uninstall_files:
`prefix.starts_with("/usr") || prefix == "/opt"`. -/
def needs_root (pfx : String) : Bool := strStartsWith pfx "/usr" || pfx == "/opt"

/-- Shared body of both confirmation prompts:
`input.trim().to_lowercase() == "y"`. -/
def confirm_answer (input : String) : Bool := strToLower (strTrim input) == "y"

/-- Process environment: effective uid, `SUDO_USER`, home directory, and the
line the user types at each confirmation prompt. -/
structure Env where
  is_root : Bool
  sudo_user : Option String
  home_dir : Option FPath
  install_answer : String
  uninstall_answer : String
deriving DecidableEq

/-- `get_user_home_dir`: `/home/$SUDO_USER` when elevated via sudo, else the
process home directory, else `/tmp`. -/
def get_user_home_dir (env : Env) : FPath :=
  match env.sudo_user with
  | some u => ["home", u]
  | none => env.home_dir.getD ["tmp"]

/-- `confirm_installation`: display dependencies, read a line, accept `y`. -/
def confirm_installation (env : Env) : Bool := confirm_answer env.install_answer

/-- `confirm_uninstallation`: read a line, accept `y`. -/
def confirm_uninstallation (env : Env) : Bool := confirm_answer env.uninstall_answer

/-- The filesystem: files with contents, existing directories, paths whose
deletion fails (permission / busy), directories whose listing fails. -/
structure FS where
  files : List (FPath × Nat)
  dirs : List FPath
  locked : List FPath
  unreadable : List FPath
deriving DecidableEq

/-- Association-list lookup of a file's content. -/
def lookupFile : List (FPath × Nat) → FPath → Option Nat
  | [], _ => none
  | e :: rest, p => if e.1 = p then some e.2 else lookupFile rest p

/-- A regular file exists at `p`. -/
def FS.fileExists (fs : FS) (p : FPath) : Bool := (lookupFile fs.files p).isSome

/-- A directory exists at `p`. -/
def FS.isDir (fs : FS) (p : FPath) : Bool := decide (p ∈ fs.dirs)

/-- Rust `Path::exists`: a file or directory exists at `p`. -/
def FS.pathExists (fs : FS) (p : FPath) : Bool := fs.fileExists p || fs.isDir p

/-- All nonempty prefixes of a path, shortest first. -/
def properPrefixes (p : FPath) : List FPath :=
  (List.range p.length).map (fun n => p.take (n + 1))

/-- `fs::create_dir_all`: ensure `p` and all its ancestors exist. -/
def FS.createDirAll (fs : FS) (p : FPath) : FS :=
  { fs with dirs := fs.dirs ++ (properPrefixes p).filter (fun d => decide (d ∉ fs.dirs)) }

/-- `fs::copy` into destination `p`: fails when the parent directory does not
exist. -/
def FS.writeFile (fs : FS) (p : FPath) (c : Nat) : Option FS :=
  if p.dropLast.isEmpty || fs.isDir p.dropLast then
    some { fs with files := (p, c) :: fs.files }
  else none

/-- `fs::remove_file`: fails when `p` is locked or is not a regular file. -/
def FS.removeFile (fs : FS) (p : FPath) : Option FS :=
  if p ∈ fs.locked ∨ fs.fileExists p = false then none
  else some { fs with files := fs.files.filter (fun e => decide (e.1 ≠ p)) }

/-- Whether the directory `p` has at least one direct child entry. -/
def FS.hasChild (fs : FS) (p : FPath) : Bool :=
  decide ((∃ e ∈ fs.files, e.1.dropLast = p ∧ e.1 ≠ []) ∨
          (∃ d ∈ fs.dirs, d.dropLast = p ∧ d ≠ []))

/-- `fs::read_dir(p)` followed by `entries.next().is_none()`: none when the
directory cannot be read. -/
def FS.readDirIsEmpty (fs : FS) (p : FPath) : Option Bool :=
  if p ∈ fs.unreadable then none else some (!fs.hasChild p)

/-- `fs::remove_dir`: fails when `p` is locked. -/
def FS.removeDir (fs : FS) (p : FPath) : Option FS :=
  if p ∈ fs.locked then none
  else some { fs with dirs := fs.dirs.filter (fun d => decide (d ≠ p)) }

/-- One line of console output of the installer core. -/
inductive Event where
  | recorded (p : FPath)
  | copied (p : FPath)
  | warnExists (p : FPath)
  | skipNonElf (p : FPath)
  | skipInvalidIcon (p : FPath)
  | removedFile (p : FPath)
  | fileMissing (p : FPath)
  | removedEmptyDir (p : FPath)
deriving DecidableEq

/-- Error taxonomy of the install/uninstall operations. -/
inductive Err where
  | permissionPolicy
  | metadataUnreadable
  | userCancelled
  | manifestNotFound
  | ioError (p : FPath)
deriving DecidableEq

/-- The manifest store: package name to recorded destination paths. -/
abbrev Logs := List (String × List FPath)

/-- Read a package's manifest, none when absent. -/
def logsGet : Logs → String → Option (List FPath)
  | [], _ => none
  | e :: rest, k => if e.1 = k then some e.2 else logsGet rest k

/-- `File::create` on the manifest: truncate or create the entry for `k`. -/
def logsSet (logs : Logs) (k : String) (v : List FPath) : Logs :=
  (k, v) :: logs.filter (fun e => decide (e.1 ≠ k))

/-- `writeln!` of one destination path into the manifest of `k`. -/
def logsAppend (logs : Logs) (k : String) (p : FPath) : Logs :=
  logs.map (fun e => if e.1 = k then (e.1, e.2 ++ [p]) else e)

/-- `fs::remove_file` of the manifest file of `k`. -/
def logsErase (logs : Logs) (k : String) : Logs :=
  logs.filter (fun e => decide (e.1 ≠ k))

/-- The state threaded through an operation. -/
structure State where
  fs : FS
  logs : Logs
  events : List Event
deriving DecidableEq

/-- The upward walk of `clean_empty_dirs`, with an explicit bound on the
number of parent steps (each step strictly shortens the path, so a bound of
one more than the starting depth is never exhausted): delete `p` when it is
a directory whose listing succeeds and is empty, then recurse into the
parent; an unreadable directory counts as non-empty (`unwrap_or(false)`). -/
def cleanLoop (fs : FS) (p : FPath) : Nat → FS × List Event × Option Err
  | 0 => (fs, [], none)
  | fuel + 1 =>
    if fs.isDir p then
      if (fs.readDirIsEmpty p).getD false then
        match fs.removeDir p with
        | none => (fs, [], some (.ioError p))
        | some fs1 =>
          if p = [] then (fs1, [Event.removedEmptyDir p], none)
          else
            let r := cleanLoop fs1 p.dropLast fuel
            (r.1, Event.removedEmptyDir p :: r.2.1, r.2.2)
      else (fs, [], none)
    else (fs, [], none)

/-- `clean_empty_dirs` from src/main.rs. -/
def clean_empty_dirs (fs : FS) (p : FPath) : FS × List Event × Option Err :=
  cleanLoop fs p (p.length + 1)

/-- MIME check of the binaries category:
`starts_with("application/x-executable") || starts_with("application/x-sharedlib")`. -/
def mimeIsExec (m : String) : Bool :=
  strStartsWith m "application/x-executable" || strStartsWith m "application/x-sharedlib"

/-- Body of the binaries loop of install_files for one walked regular file
`e` (source path and content): classify the content, then record the
destination in the manifest before copying; a pre-existing destination is
skipped with a warning. -/
def install_bin_step (sniff : Nat → Option String) (src_bin dbin : FPath) (k : String)
    (st : State) (e : FPath × Nat) : State × Option Err :=
  match sniff e.2 with
  | some mime =>
    if mimeIsExec mime then
      let dest := dbin ++ e.1.drop src_bin.length
      let st1 : State := { st with logs := logsAppend st.logs k dest,
                                   events := st.events ++ [Event.recorded dest] }
      if st1.fs.pathExists dest then
        ({ st1 with events := st1.events ++ [Event.warnExists dest] }, none)
      else
        match st1.fs.writeFile dest e.2 with
        | some fs2 => ({ st1 with fs := fs2, events := st1.events ++ [Event.copied dest] }, none)
        | none => (st1, some (.ioError dest))
    else ({ st with events := st.events ++ [Event.skipNonElf e.1] }, none)
  | none => ({ st with events := st.events ++ [Event.skipNonElf e.1] }, none)

/-- Body of the desktop-entry loop of install_files for one walked regular
file: the `.desktop` extension is the sole filter; record then copy or skip. -/
def install_desktop_step (src_d dd : FPath) (k : String)
    (st : State) (e : FPath × Nat) : State × Option Err :=
  if extMatches e.1 "desktop" then
    let dest := dd ++ e.1.drop src_d.length
    let st1 : State := { st with logs := logsAppend st.logs k dest,
                                 events := st.events ++ [Event.recorded dest] }
    if st1.fs.pathExists dest then
      ({ st1 with events := st1.events ++ [Event.warnExists dest] }, none)
    else
      match st1.fs.writeFile dest e.2 with
      | some fs2 => ({ st1 with fs := fs2, events := st1.events ++ [Event.copied dest] }, none)
      | none => (st1, some (.ioError dest))
  else (st, none)

/-- The `is_valid_icon` test of the icon loop: the sniffed MIME type is
exactly `image/png` or `image/svg+xml`, and a failed classification rejects. -/
def is_valid_icon (sniff : Nat → Option String) (c : Nat) : Bool :=
  match sniff c with
  | some m => m == "image/png" || m == "image/svg+xml"
  | none => false

/-- Body of the icon loop of install_files for one walked regular file:
filter on `.png`/`.svg` extension, then on sniffed content being exactly
`image/png` or `image/svg+xml`; record then create the destination's parent
directories and copy, or skip a pre-existing destination. -/
def install_icon_step (sniff : Nat → Option String) (src_i di : FPath) (k : String)
    (st : State) (e : FPath × Nat) : State × Option Err :=
  if extMatches e.1 "png" || extMatches e.1 "svg" then
    if is_valid_icon sniff e.2 then
      let dest := di ++ e.1.drop src_i.length
      let st1 : State := { st with logs := logsAppend st.logs k dest,
                                   events := st.events ++ [Event.recorded dest] }
      if st1.fs.pathExists dest then
        ({ st1 with events := st1.events ++ [Event.warnExists dest] }, none)
      else
        let fs1 := st1.fs.createDirAll dest.dropLast
        match fs1.writeFile dest e.2 with
        | some fs2 => ({ st1 with fs := fs2, events := st1.events ++ [Event.copied dest] }, none)
        | none => (st1, some (.ioError dest))
    else ({ st with events := st.events ++ [Event.skipInvalidIcon e.1] }, none)
  else (st, none)

/-- Run a per-file loop body over a list of walked files, stopping at the
first `?`-propagated error. -/
def runSteps (step : State → FPath × Nat → State × Option Err) :
    State → List (FPath × Nat) → State × Option Err
  | st, [] => (st, none)
  | st, e :: rest =>
    match step st e with
    | (st1, none) => runSteps step st1 rest
    | (st1, some err) => (st1, some err)

/-- `WalkDir` restricted to regular files: every file strictly below `root`. -/
def walkFiles (fs : FS) (root : FPath) : List (FPath × Nat) :=
  fs.files.filter (fun e => decide (e.1.take root.length = root ∧ e.1 ≠ root))

/-- Destination directory of the binaries category. -/
def dest_bin_dir (pfx : String) : FPath := pathComps pfx ++ ["bin"]

/-- Destination directory of the desktop-entry category. -/
def dest_desktop_dir (env : Env) (pfx : String) : FPath :=
  if pfx == "/usr/local" then pathComps pfx ++ ["share", "applications"]
  else get_user_home_dir env ++ [".local", "share", "applications"]

/-- Destination directory of the icon category. -/
def dest_icon_dir (env : Env) (pfx : String) : FPath :=
  if pfx == "/usr/local" then pathComps pfx ++ ["share", "icons"]
  else get_user_home_dir env ++ [".local", "share", "icons"]

/-- `install_files` from src/main.rs.  `temp` is the extracted archive root;
`package` is the archive path given on the command line.  Returns the state
reached and the error the operation stopped with, if any. -/
def install_files (env : Env) (sniff : Nat → Option String) (temp : FPath)
    (pfx : String) (package : String) (st : State) : State × Option Err :=
  if needs_root pfx && !env.is_root then (st, some .permissionPolicy)
  else if !(st.fs.fileExists (temp ++ [".PKGINFO"])) then (st, some .metadataUnreadable)
  else if !(confirm_installation env) then (st, some .userCancelled)
  else
    let package_name := get_package_name package
    let st0 : State := { st with logs := logsSet st.logs package_name [] }
    let src_bin := temp ++ ["usr", "bin"]
    let dbin := dest_bin_dir pfx
    let p1 :=
      if st0.fs.pathExists src_bin then
        let stb : State := { st0 with fs := st0.fs.createDirAll dbin }
        runSteps (install_bin_step sniff src_bin dbin package_name) stb (walkFiles stb.fs src_bin)
      else (st0, none)
    match p1 with
    | (st1, some er) => (st1, some er)
    | (st1, none) =>
      let src_d := temp ++ ["usr", "share", "applications"]
      let dd := dest_desktop_dir env pfx
      let p2 :=
        if st1.fs.pathExists src_d then
          let std : State := { st1 with fs := st1.fs.createDirAll dd }
          runSteps (install_desktop_step src_d dd package_name) std (walkFiles std.fs src_d)
        else (st1, none)
      match p2 with
      | (st2, some er) => (st2, some er)
      | (st2, none) =>
        let src_i := temp ++ ["usr", "share", "icons"]
        let di := dest_icon_dir env pfx
        if st2.fs.pathExists src_i then
          let sti : State := { st2 with fs := st2.fs.createDirAll di }
          runSteps (install_icon_step sniff src_i di package_name) sti (walkFiles sti.fs src_i)
        else (st2, none)

/-- Body of the removal loop of uninstall_files for one recorded path: a
present path is deleted (an OS deletion failure aborts with the failing
path); an absent path is logged and skipped. -/
def uninstall_step (st : State) (p : FPath) : State × Option Err :=
  if st.fs.pathExists p then
    match st.fs.removeFile p with
    | some fs1 => ({ st with fs := fs1, events := st.events ++ [Event.removedFile p] }, none)
    | none => (st, some (.ioError p))
  else ({ st with events := st.events ++ [Event.fileMissing p] }, none)

/-- Run the removal loop at the type required by `runSteps`. -/
def runRemovals : State → List FPath → State × Option Err
  | st, [] => (st, none)
  | st, p :: rest =>
    match uninstall_step st p with
    | (st1, none) => runRemovals st1 rest
    | (st1, some er) => (st1, some er)

/-- `uninstall_files` from src/main.rs: privilege gate, confirmation,
manifest lookup, ordered removal loop, manifest deletion, then pruning of
empty directories upward from the three destination roots. -/
def uninstall_files (env : Env) (package : String) (pfx : String)
    (st : State) : State × Option Err :=
  if needs_root pfx && !env.is_root then (st, some .permissionPolicy)
  else if !(confirm_uninstallation env) then (st, some .userCancelled)
  else
    let package_name := get_package_name package
    match logsGet st.logs package_name with
    | none => (st, some .manifestNotFound)
    | some entries =>
      match runRemovals st entries with
      | (st1, some er) => (st1, some er)
      | (st1, none) =>
        let st2 : State := { st1 with logs := logsErase st1.logs package_name }
        match clean_empty_dirs st2.fs (dest_bin_dir pfx) with
        | (fs1, ev1, some er) =>
          ({ st2 with fs := fs1, events := st2.events ++ ev1 }, some er)
        | (fs1, ev1, none) =>
          let st3 : State := { st2 with fs := fs1, events := st2.events ++ ev1 }
          match clean_empty_dirs st3.fs (dest_desktop_dir env pfx) with
          | (fs2, ev2, some er) =>
            ({ st3 with fs := fs2, events := st3.events ++ ev2 }, some er)
          | (fs2, ev2, none) =>
            let st4 : State := { st3 with fs := fs2, events := st3.events ++ ev2 }
            match clean_empty_dirs st4.fs (dest_icon_dir env pfx) with
            | (fs3, ev3, some er) =>
              ({ st4 with fs := fs3, events := st4.events ++ ev3 }, some er)
            | (fs3, ev3, none) =>
              ({ st4 with fs := fs3, events := st4.events ++ ev3 }, none)

/-! Concrete scenario data used by witnesses and counterexamples. -/

/-- A concrete sniffing oracle: 7 is an ELF executable, 8 a shared library,
9 a PNG image, 11 plain text, everything else unrecognized. -/
def witSniff : Nat → Option String
  | 7 => some "application/x-executable"
  | 8 => some "application/x-sharedlib"
  | 9 => some "image/png"
  | 11 => some "text/plain"
  | _ => none

/-- An unprivileged environment that answers `y` to both prompts. -/
def witEnv : Env :=
  { is_root := false, sudo_user := none, home_dir := some ["home", "u"],
    install_answer := "y", uninstall_answer := "y" }

/-- An unprivileged environment that declines both prompts. -/
def declineEnv : Env :=
  { is_root := false, sudo_user := none, home_dir := some ["home", "u"],
    install_answer := "yes", uninstall_answer := "n" }

/-- Extracted archive at `/t` holding one ELF binary `foo`, with a
pre-existing unrelated file already at the destination
`/tmp/testroot/bin/foo` (content 42) and the destination tree existing. -/
def collideFS : FS :=
  { files := [(["t", ".PKGINFO"], 0), (["t", "usr", "bin", "foo"], 7),
              (["tmp", "testroot", "bin", "foo"], 42)],
    dirs := [["t"], ["t", "usr"], ["t", "usr", "bin"],
             ["tmp"], ["tmp", "testroot"], ["tmp", "testroot", "bin"]],
    locked := [], unreadable := [] }

/-- Initial state of the collision scenario. -/
def collideSt : State := { fs := collideFS, logs := [], events := [] }

/-- Install of `foo-1.0-1-x86_64.pkg.tar.zst` into `/tmp/testroot` over the
collision scenario. -/
def collideRun1 : State × Option Err :=
  install_files witEnv witSniff ["t"] "/tmp/testroot" "foo-1.0-1-x86_64.pkg.tar.zst" collideSt

/-- The uninstall that follows `collideRun1`. -/
def collideRun2 : State × Option Err :=
  uninstall_files witEnv "foo-1.0-1-x86_64.pkg.tar.zst" "/tmp/testroot" collideRun1.1

/-- A state whose destination root `/q/bin` exists but whose subdirectory
`sub` does not, with an open manifest for package `k`. -/
def nestSt : State :=
  { fs := { files := [], dirs := [["q"], ["q", "bin"]], locked := [], unreadable := [] },
    logs := [("k", [])], events := [] }

/-- Extracted archive at `/t` holding a valid PNG icon `a.png` (content 9)
whose destination already exists with different content (42), and a
`readme.txt` file in the icon directory. -/
def iconFS : FS :=
  { files := [(["t", ".PKGINFO"], 0),
              (["t", "usr", "share", "icons", "a.png"], 9),
              (["t", "usr", "share", "icons", "readme.txt"], 11),
              (["home", "u", ".local", "share", "icons", "a.png"], 42)],
    dirs := [["t"], ["t", "usr"], ["t", "usr", "share"], ["t", "usr", "share", "icons"],
             ["home"], ["home", "u"], ["home", "u", ".local"],
             ["home", "u", ".local", "share"], ["home", "u", ".local", "share", "icons"]],
    locked := [], unreadable := [] }

/-- Initial state of the icon-collision scenario. -/
def iconSt : State := { fs := iconFS, logs := [], events := [] }

/-- Install of `pkg-1.0` into the non-elevated prefix `/p` over the
icon-collision scenario. -/
def iconRun : State × Option Err :=
  install_files witEnv witSniff ["t"] "/p" "pkg-1.0" iconSt

/-- Three files `/d/a`, `/d/b`, `/d/c` of which `/d/b` cannot be deleted. -/
def lockFS : FS :=
  { files := [(["d", "a"], 1), (["d", "b"], 2), (["d", "c"], 3)],
    dirs := [["d"]], locked := [["d", "b"]], unreadable := [] }

/-- A manifest for package `x` listing the three locked-scenario files. -/
def lockSt : State :=
  { fs := lockFS, logs := [("x", [["d", "a"], ["d", "b"], ["d", "c"]])], events := [] }

/-- `lockSt` after the removal of `/d/a` succeeded. -/
def lockSt1 : State :=
  { fs := { lockFS with files := [(["d", "b"], 2), (["d", "c"], 3)] },
    logs := lockSt.logs, events := [Event.removedFile ["d", "a"]] }

/-- Extracted archive at `/t` holding one ELF binary `foo` and nothing
pre-existing under the destination prefix `/tmp/testroot`. -/
def cleanFS : FS :=
  { files := [(["t", ".PKGINFO"], 0), (["t", "usr", "bin", "foo"], 7)],
    dirs := [["t"], ["t", "usr"], ["t", "usr", "bin"]],
    locked := [], unreadable := [] }

/-- Initial state of the collision-free round-trip scenario. -/
def cleanSt : State := { fs := cleanFS, logs := [], events := [] }

/-- Install of `foo-1.0-1-x86_64.pkg.tar.zst` into `/tmp/testroot` over the
collision-free scenario. -/
def cleanRun1 : State × Option Err :=
  install_files witEnv witSniff ["t"] "/tmp/testroot" "foo-1.0-1-x86_64.pkg.tar.zst" cleanSt

/-- The uninstall that follows `cleanRun1`. -/
def cleanRun2 : State × Option Err :=
  uninstall_files witEnv "foo-1.0-1-x86_64.pkg.tar.zst" "/tmp/testroot" cleanRun1.1

/-- A filesystem with a single directory `/a` that cannot be listed. -/
def unreadFS : FS :=
  { files := [], dirs := [["a"]], locked := [], unreadable := [["a"]] }

/-- Console lines emitted by a loop body that records nothing. -/
def isSkipEvent : Event → Bool
  | .skipNonElf _ => true
  | .skipInvalidIcon _ => true
  | _ => false

/-- Behavioral interface shared by the three per-file install loop bodies:
each processed file either only produces skip diagnostics, or appends one
destination to the manifest of `k` and then (in that order) warns about a
pre-existing destination, or copies the file, or fails the copy with an
I/O error naming the destination. -/
def GoodStep (k : String) (step : State → FPath × Nat → State × Option Err) : Prop :=
  ∀ st e,
    (∃ block, block.all isSkipEvent = true ∧
        step st e = ({ st with events := st.events ++ block }, none))
    ∨ (∃ d, step st e =
        ({ st with logs := logsAppend st.logs k d,
                   events := st.events ++ [Event.recorded d, Event.warnExists d] }, none))
    ∨ (∃ d c fs2, fs2.files = (d, c) :: st.fs.files ∧ step st e =
        ({ st with logs := logsAppend st.logs k d,
                   events := st.events ++ [Event.recorded d, Event.copied d],
                   fs := fs2 }, none))
    ∨ (∃ d, step st e =
        ({ st with logs := logsAppend st.logs k d,
                   events := st.events ++ [Event.recorded d] }, some (Err.ioError d)))

/-! Helper lemmas. -/

theorem rustSplitChar_ne_nil (sep : Char) (l : List Char) : rustSplitChar sep l ≠ [] := by
  induction l with
  | nil => simp [rustSplitChar]
  | cons c rest ih =>
    simp only [rustSplitChar]
    by_cases h : c = sep
    · simp [h]
    · simp only [if_neg h]
      cases hr : rustSplitChar sep rest with
      | nil => simp
      | cons g gs => simp

theorem rustSplitChar_head (sep : Char) (l : List Char) :
    (rustSplitChar sep l).head? = some (l.takeWhile (fun c => decide (c ≠ sep))) := by
  induction l with
  | nil => simp [rustSplitChar]
  | cons c rest ih =>
    simp only [rustSplitChar, List.takeWhile]
    by_cases h : c = sep
    · simp [h]
    · simp only [if_neg h]
      cases hr : rustSplitChar sep rest with
      | nil => exact absurd hr (rustSplitChar_ne_nil sep rest)
      | cons g gs =>
        rw [hr] at ih
        simp only [List.head?] at ih ⊢
        simp only [Option.some.injEq] at ih
        simp [h, ih]

/-! Claim C7. -/

/-- C7: for every archive path, `get_package_name` returns the portion of
the archive's file name before the first hyphen, and the literal "unknown"
when no file name can be determined from the path. -/
theorem C7_package_name (p : String) :
    get_package_name p =
      String.mk (((rustFileName p).getD "unknown").data.takeWhile (fun c => decide (c ≠ '-')))
    ∧ (rustFileName p = none → get_package_name p = "unknown") := by
  have hmain : get_package_name p =
      String.mk (((rustFileName p).getD "unknown").data.takeWhile (fun c => decide (c ≠ '-'))) := by
    unfold get_package_name
    have h := rustSplitChar_head '-' ((rustFileName p).getD "unknown").data
    cases hs : rustSplitChar '-' ((rustFileName p).getD "unknown").data with
    | nil => exact absurd hs (rustSplitChar_ne_nil _ _)
    | cons g gs =>
      rw [hs] at h
      simp only [List.head?, Option.some.injEq] at h
      simp [hs, h]
  refine ⟨hmain, fun hnone => ?_⟩
  rw [hmain, hnone]
  decide

/-- C7 witness: the scenario inputs of the claim, evaluated concretely. -/
theorem C7_package_name_witness :
    (rustFileName "" = none ∧ get_package_name "" = "unknown")
    ∧ get_package_name "foo-1.0-1-x86_64.pkg.tar.zst" = "foo" := by
  refine ⟨⟨by decide, (C7_package_name "").2 (by decide)⟩, ?_⟩
  rw [(C7_package_name "foo-1.0-1-x86_64.pkg.tar.zst").1]
  decide

/-! Claim C3. -/

/-- C3: an operation on `pfx` requires elevation exactly when the prefix
string starts with "/usr" or equals "/opt": when that predicate holds and
the process is unprivileged, install and uninstall both stop at once with
the permission-policy error and leave the state — hence the filesystem —
completely untouched, and when it does not hold the operations behave
identically whatever the privilege bit, so elevation is never required. -/
theorem C3_privilege_gate (pfx : String) (env : Env) (sniff : Nat → Option String)
    (temp : FPath) (package : String) (st : State) :
    needs_root pfx = (strStartsWith pfx "/usr" || pfx == "/opt")
    ∧ (needs_root pfx = true → env.is_root = false →
        install_files env sniff temp pfx package st = (st, some Err.permissionPolicy)
        ∧ uninstall_files env package pfx st = (st, some Err.permissionPolicy))
    ∧ (needs_root pfx = false → ∀ b : Bool,
        install_files { env with is_root := b } sniff temp pfx package st
          = install_files { env with is_root := false } sniff temp pfx package st
        ∧ uninstall_files { env with is_root := b } package pfx st
          = uninstall_files { env with is_root := false } package pfx st) := by
  refine ⟨rfl, fun h1 h2 => ⟨?_, ?_⟩, fun hroot b => ⟨?_, ?_⟩⟩
  · simp [install_files, h1, h2]
  · simp [uninstall_files, h1, h2]
  · simp only [install_files, hroot, Bool.false_and, Bool.not_false]
    rfl
  · simp only [uninstall_files, hroot, Bool.false_and, Bool.not_false]
    rfl

/-- C3 witness: the default prefix `/usr/local` without privilege. -/
theorem C3_privilege_gate_witness :
    needs_root "/usr/local" = true ∧ witEnv.is_root = false
    ∧ install_files witEnv witSniff ["t"] "/usr/local" "a" collideSt
        = (collideSt, some Err.permissionPolicy)
    ∧ uninstall_files witEnv "a" "/usr/local" collideSt
        = (collideSt, some Err.permissionPolicy) := by
  have h := (C3_privilege_gate "/usr/local" witEnv witSniff ["t"] "a" collideSt).2.1
    (by decide) (by decide)
  exact ⟨by decide, by decide, h.1, h.2⟩

/-! Claim C4. -/

/-- C4 counterexample: with an unprivileged process, a root-requiring
prefix, and a user who would decline, uninstall fails with the
permission-policy error, not the cancellation error: the privilege gate
runs before the confirmation prompt. -/
theorem C4_counterexample :
    confirm_answer declineEnv.uninstall_answer = false
    ∧ needs_root "/usr/local" = true
    ∧ declineEnv.is_root = false
    ∧ uninstall_files declineEnv "pkg" "/usr/local" collideSt
        = (collideSt, some Err.permissionPolicy)
    ∧ Err.permissionPolicy ≠ Err.userCancelled := by decide

/-- C4 (amended): the Reverser evaluates the privilege gate before the
confirmation prompt: an unprivileged process against a root-requiring
prefix fails with the permission-policy error whatever the user would
answer, and only once the gate passes does a non-affirmative answer fail
the operation with the cancellation error (in both cases with no writes). -/
theorem C4_gate_before_confirmation (env : Env) (package pfx : String) (st : State) :
    (needs_root pfx = true → env.is_root = false →
       uninstall_files env package pfx st = (st, some Err.permissionPolicy))
    ∧ ((needs_root pfx && !env.is_root) = false →
       confirm_answer env.uninstall_answer = false →
       uninstall_files env package pfx st = (st, some Err.userCancelled)) := by
  constructor
  · intro h1 h2
    simp [uninstall_files, h1, h2]
  · intro h1 h2
    simp [uninstall_files, h1, confirm_uninstallation, h2]

/-- C4 witness: a declining user on a prefix that needs no elevation. -/
theorem C4_gate_before_confirmation_witness :
    uninstall_files declineEnv "pkg" "/home/u/apps" collideSt
      = (collideSt, some Err.userCancelled) :=
  (C4_gate_before_confirmation declineEnv "pkg" "/home/u/apps" collideSt).2
    (by decide) (by decide)

/-! Claim C10. -/

/-- C10: both confirmation prompts are affirmative exactly when the typed
line, trimmed and lowercased, is the single letter "y"; under a passed
privilege gate (and, for install, readable metadata) any other answer stops
the operation with the cancellation error and no state change. -/
theorem C10_confirmation_prompts (s : String) (env : Env) (sniff : Nat → Option String)
    (temp : FPath) (pfx package : String) (st : State) :
    (confirm_answer s = true ↔ strToLower (strTrim s) = "y")
    ∧ ((needs_root pfx && !env.is_root) = false →
        st.fs.fileExists (temp ++ [".PKGINFO"]) = true →
        confirm_answer env.install_answer = false →
        install_files env sniff temp pfx package st = (st, some Err.userCancelled))
    ∧ ((needs_root pfx && !env.is_root) = false →
        confirm_answer env.uninstall_answer = false →
        uninstall_files env package pfx st = (st, some Err.userCancelled)) := by
  refine ⟨?_, ?_, ?_⟩
  · simp [confirm_answer]
  · intro h1 h2 h3
    simp [install_files, h1, h2, confirm_installation, h3]
  · intro h1 h2
    simp [uninstall_files, h1, confirm_uninstallation, h2]

/-- C10 witness: "yes", the empty line and " Y " behave as claimed, and a
"yes" answer cancels a concrete install. -/
theorem C10_confirmation_prompts_witness :
    confirm_answer "yes" = false ∧ confirm_answer "" = false
    ∧ confirm_answer " Y " = true
    ∧ install_files declineEnv witSniff ["t"] "/home/u/apps" "pkg" collideSt
        = (collideSt, some Err.userCancelled) := by
  refine ⟨by decide, by decide, by decide, ?_⟩
  exact (C10_confirmation_prompts "x" declineEnv witSniff ["t"] "/home/u/apps" "pkg"
    collideSt).2.1 (by decide) (by decide) (by decide)

/-! Directory-creation lemmas. -/

theorem self_mem_properPrefixes (p : FPath) (h : p ≠ []) : p ∈ properPrefixes p := by
  have hl : 0 < p.length := List.length_pos.mpr h
  refine List.mem_map.mpr ⟨p.length - 1, List.mem_range.mpr (by omega), ?_⟩
  rw [Nat.sub_add_cancel hl]
  exact List.take_length p

theorem createDirAll_isDir_self (fs : FS) (p : FPath) (h : p ≠ []) :
    (fs.createDirAll p).isDir p = true := by
  simp only [FS.createDirAll, FS.isDir, decide_eq_true_eq, List.mem_append]
  by_cases hp : p ∈ fs.dirs
  · exact Or.inl hp
  · exact Or.inr (List.mem_filter.mpr ⟨self_mem_properPrefixes p h, by simpa using hp⟩)

theorem createDirAll_files (fs : FS) (p : FPath) : (fs.createDirAll p).files = fs.files := rfl

theorem createDirAll_writeFile (fs : FS) (dest : FPath) (c : Nat) :
    (fs.createDirAll dest.dropLast).writeFile dest c =
      some { fs.createDirAll dest.dropLast with files := (dest, c) :: fs.files } := by
  by_cases h : dest.dropLast = []
  · simp [FS.writeFile, h, createDirAll_files]
  · have hd := createDirAll_isDir_self fs dest.dropLast h
    simp [FS.writeFile, hd, createDirAll_files,
      List.isEmpty_iff]

/-! Claim C8. -/

/-- C8: for a classified executable or shared-library source file whose
destination lies in a subdirectory that does not exist (the Deployer only
ensures the top-level destination directory), the copy fails with an I/O
error naming the destination — after the destination has already been
recorded in the manifest and with no directory created; the same holds for
nested `.desktop` files; icons, in contrast, get their destination parent
directories created and the copy succeeds. -/
theorem C8_nested_destination (sniff : Nat → Option String) (src dst : FPath) (k : String)
    (st : State) (e : FPath × Nat) (m : String) :
    (sniff e.2 = some m → mimeIsExec m = true →
      st.fs.pathExists (dst ++ e.1.drop src.length) = false →
      (dst ++ e.1.drop src.length).dropLast.isEmpty = false →
      st.fs.isDir (dst ++ e.1.drop src.length).dropLast = false →
      install_bin_step sniff src dst k st e =
        ({ st with logs := logsAppend st.logs k (dst ++ e.1.drop src.length),
                   events := st.events ++ [Event.recorded (dst ++ e.1.drop src.length)] },
         some (Err.ioError (dst ++ e.1.drop src.length))))
    ∧ (extMatches e.1 "desktop" = true →
      st.fs.pathExists (dst ++ e.1.drop src.length) = false →
      (dst ++ e.1.drop src.length).dropLast.isEmpty = false →
      st.fs.isDir (dst ++ e.1.drop src.length).dropLast = false →
      install_desktop_step src dst k st e =
        ({ st with logs := logsAppend st.logs k (dst ++ e.1.drop src.length),
                   events := st.events ++ [Event.recorded (dst ++ e.1.drop src.length)] },
         some (Err.ioError (dst ++ e.1.drop src.length))))
    ∧ ((extMatches e.1 "png" || extMatches e.1 "svg") = true →
      is_valid_icon sniff e.2 = true →
      st.fs.pathExists (dst ++ e.1.drop src.length) = false →
      install_icon_step sniff src dst k st e =
        ({ st with logs := logsAppend st.logs k (dst ++ e.1.drop src.length),
                   events := st.events ++ [Event.recorded (dst ++ e.1.drop src.length),
                                           Event.copied (dst ++ e.1.drop src.length)],
                   fs := { st.fs.createDirAll (dst ++ e.1.drop src.length).dropLast with
                             files := (dst ++ e.1.drop src.length, e.2) :: st.fs.files } },
         none)) := by
  refine ⟨?_, ?_, ?_⟩
  · intro hs hm hex hne hnd
    simp [install_bin_step, hs, hm, hex, FS.writeFile, hne, hnd]
  · intro hd hex hne hnd
    simp [install_desktop_step, hd, hex, FS.writeFile, hne, hnd]
  · intro he hv hex
    simp [install_icon_step, he, hv, hex, createDirAll_writeFile]

/-- C8 witness: a nested ELF binary, a nested desktop file, and a nested
icon, each against destination root `/q/bin` whose subdirectory `sub` does
not exist. -/
theorem C8_nested_destination_witness :
    install_bin_step witSniff ["s"] ["q", "bin"] "k" nestSt (["s", "sub", "x"], 7) =
      ({ nestSt with logs := logsAppend nestSt.logs "k" ["q", "bin", "sub", "x"],
                     events := [Event.recorded ["q", "bin", "sub", "x"]] },
       some (Err.ioError ["q", "bin", "sub", "x"]))
    ∧ install_desktop_step ["s"] ["q", "bin"] "k" nestSt (["s", "sub", "y.desktop"], 11) =
      ({ nestSt with logs := logsAppend nestSt.logs "k" ["q", "bin", "sub", "y.desktop"],
                     events := [Event.recorded ["q", "bin", "sub", "y.desktop"]] },
       some (Err.ioError ["q", "bin", "sub", "y.desktop"]))
    ∧ (install_icon_step witSniff ["s"] ["q", "bin"] "k" nestSt (["s", "sub", "z.png"], 9)).2
        = none
    ∧ (install_icon_step witSniff ["s"] ["q", "bin"] "k" nestSt
        (["s", "sub", "z.png"], 9)).1.fs.isDir ["q", "bin", "sub"] = true := by
  refine ⟨?_, ?_, ?_, ?_⟩
  · have h := (C8_nested_destination witSniff ["s"] ["q", "bin"] "k" nestSt
      (["s", "sub", "x"], 7) "application/x-executable").1
      (by decide) (by decide) (by decide) (by decide) (by decide)
    rw [h]; decide
  · have h := (C8_nested_destination witSniff ["s"] ["q", "bin"] "k" nestSt
      (["s", "sub", "y.desktop"], 11) "x").2.1
      (by decide) (by decide) (by decide) (by decide)
    rw [h]; decide
  · have h := (C8_nested_destination witSniff ["s"] ["q", "bin"] "k" nestSt
      (["s", "sub", "z.png"], 9) "x").2.2
      (by decide) (by decide) (by decide)
    rw [h]
  · have h := (C8_nested_destination witSniff ["s"] ["q", "bin"] "k" nestSt
      (["s", "sub", "z.png"], 9) "x").2.2
      (by decide) (by decide) (by decide)
    rw [h]; decide

/-! Claim C6. -/

/-- C6 counterexample: a `.png` file with genuine PNG content whose
destination already exists passes both checks but is not deployed (it is
recorded and then skipped, the pre-existing content stays), so "deployed
iff both checks pass" fails; moreover the `readme.txt` file fails the
extension check yet produces no diagnostic at all — the trace of this
install holds only the two events of the colliding icon. -/
theorem C6_counterexample :
    extMatches ["t", "usr", "share", "icons", "a.png"] "png" = true
    ∧ is_valid_icon witSniff 9 = true
    ∧ lookupFile iconSt.fs.files ["t", "usr", "share", "icons", "a.png"] = some 9
    ∧ iconRun.2 = none
    ∧ iconRun.1.events =
        [Event.recorded ["home", "u", ".local", "share", "icons", "a.png"],
         Event.warnExists ["home", "u", ".local", "share", "icons", "a.png"]]
    ∧ Event.copied ["home", "u", ".local", "share", "icons", "a.png"] ∉ iconRun.1.events
    ∧ lookupFile iconRun.1.fs.files ["home", "u", ".local", "share", "icons", "a.png"]
        = some 42
    ∧ lookupFile iconSt.fs.files ["t", "usr", "share", "icons", "readme.txt"] = some 11
    ∧ Event.skipInvalidIcon ["t", "usr", "share", "icons", "readme.txt"] ∉ iconRun.1.events := by
  decide

/-- C6 (amended): during install, a regular file under the icon source
directory is copied exactly when its name has a `.png` or `.svg` extension,
the sniffing oracle classifies its content as exactly `image/png` or
`image/svg+xml`, and the destination does not already exist — in that case
the destination's parent directories are created first and the path is
recorded in the manifest before the copy; a matching file whose destination
exists is recorded but skipped with a warning; a right-extension file with
non-matching content is skipped with a diagnostic; a wrong-extension file
is ignored silently; none of these outcomes is an error. -/
theorem C6_icon_filter (sniff : Nat → Option String) (src di : FPath) (k : String)
    (st : State) (e : FPath × Nat) :
    (install_icon_step sniff src di k st e).2 = none
    ∧ ((extMatches e.1 "png" || extMatches e.1 "svg") = false →
        install_icon_step sniff src di k st e = (st, none))
    ∧ ((extMatches e.1 "png" || extMatches e.1 "svg") = true →
        is_valid_icon sniff e.2 = false →
        install_icon_step sniff src di k st e =
          ({ st with events := st.events ++ [Event.skipInvalidIcon e.1] }, none))
    ∧ ((extMatches e.1 "png" || extMatches e.1 "svg") = true →
        is_valid_icon sniff e.2 = true →
        st.fs.pathExists (di ++ e.1.drop src.length) = true →
        install_icon_step sniff src di k st e =
          ({ st with logs := logsAppend st.logs k (di ++ e.1.drop src.length),
                     events := st.events ++ [Event.recorded (di ++ e.1.drop src.length),
                                             Event.warnExists (di ++ e.1.drop src.length)] },
           none))
    ∧ ((extMatches e.1 "png" || extMatches e.1 "svg") = true →
        is_valid_icon sniff e.2 = true →
        st.fs.pathExists (di ++ e.1.drop src.length) = false →
        install_icon_step sniff src di k st e =
          ({ st with logs := logsAppend st.logs k (di ++ e.1.drop src.length),
                     events := st.events ++ [Event.recorded (di ++ e.1.drop src.length),
                                             Event.copied (di ++ e.1.drop src.length)],
                     fs := { st.fs.createDirAll (di ++ e.1.drop src.length).dropLast with
                               files := (di ++ e.1.drop src.length, e.2) :: st.fs.files } },
           none)) := by
  have h2 : (extMatches e.1 "png" || extMatches e.1 "svg") = false →
      install_icon_step sniff src di k st e = (st, none) := by
    intro h
    simp [install_icon_step, h]
  have h3 : (extMatches e.1 "png" || extMatches e.1 "svg") = true →
      is_valid_icon sniff e.2 = false →
      install_icon_step sniff src di k st e =
        ({ st with events := st.events ++ [Event.skipInvalidIcon e.1] }, none) := by
    intro h hv
    simp [install_icon_step, h, hv]
  have h4 : (extMatches e.1 "png" || extMatches e.1 "svg") = true →
      is_valid_icon sniff e.2 = true →
      st.fs.pathExists (di ++ e.1.drop src.length) = true →
      install_icon_step sniff src di k st e =
        ({ st with logs := logsAppend st.logs k (di ++ e.1.drop src.length),
                   events := st.events ++ [Event.recorded (di ++ e.1.drop src.length),
                                           Event.warnExists (di ++ e.1.drop src.length)] },
         none) := by
    intro h hv hx
    simp [install_icon_step, h, hv, hx]
  have h5 : (extMatches e.1 "png" || extMatches e.1 "svg") = true →
      is_valid_icon sniff e.2 = true →
      st.fs.pathExists (di ++ e.1.drop src.length) = false →
      install_icon_step sniff src di k st e =
        ({ st with logs := logsAppend st.logs k (di ++ e.1.drop src.length),
                   events := st.events ++ [Event.recorded (di ++ e.1.drop src.length),
                                           Event.copied (di ++ e.1.drop src.length)],
                   fs := { st.fs.createDirAll (di ++ e.1.drop src.length).dropLast with
                             files := (di ++ e.1.drop src.length, e.2) :: st.fs.files } },
         none) := by
    intro h hv hx
    simp [install_icon_step, h, hv, hx, createDirAll_writeFile]
  have h1 : (install_icon_step sniff src di k st e).2 = none := by
    by_cases he : (extMatches e.1 "png" || extMatches e.1 "svg") = true
    · by_cases hv : is_valid_icon sniff e.2 = true
      · by_cases hx : st.fs.pathExists (di ++ e.1.drop src.length) = true
        · rw [h4 he hv hx]
        · rw [h5 he hv (by simpa using hx)]
      · rw [h3 he (by simpa using hv)]
    · rw [h2 (by simpa using he)]
  exact ⟨h1, h2, h3, h4, h5⟩

/-- C6 witness: the wrong-extension file is ignored silently and the
collision-free deployment of a valid icon produces no error. -/
theorem C6_icon_filter_witness :
    install_icon_step witSniff ["t", "usr", "share", "icons"] ["z"] "pkg" iconSt
        (["t", "usr", "share", "icons", "readme.txt"], 11) = (iconSt, none)
    ∧ (install_icon_step witSniff ["t", "usr", "share", "icons"] ["z"] "pkg" iconSt
        (["t", "usr", "share", "icons", "a.png"], 9)).2 = none := by
  constructor
  · exact (C6_icon_filter witSniff ["t", "usr", "share", "icons"] ["z"] "pkg" iconSt
      (["t", "usr", "share", "icons", "readme.txt"], 11)).2.1 (by decide)
  · exact (C6_icon_filter witSniff ["t", "usr", "share", "icons"] ["z"] "pkg" iconSt
      (["t", "usr", "share", "icons", "a.png"], 9)).1

/-! Pruning lemmas. -/

theorem readDirIsEmpty_getD_true (fs : FS) (p : FPath)
    (h : (fs.readDirIsEmpty p).getD false = true) :
    p ∉ fs.unreadable ∧ fs.hasChild p = false := by
  by_cases hu : p ∈ fs.unreadable
  · simp [FS.readDirIsEmpty, hu] at h
  · refine ⟨hu, ?_⟩
    simp [FS.readDirIsEmpty, hu] at h
    simpa using h

theorem hasChild_false_no_file_child (fs : FS) (p : FPath)
    (h : fs.hasChild p = false) : ∀ e ∈ fs.files, e.1 ≠ [] → e.1.dropLast ≠ p := by
  intro e he hne
  simp only [FS.hasChild, decide_eq_false_iff_not, not_or, not_exists, not_and] at h
  intro hdl
  exact (h.1 e he hdl) hne

theorem hasChild_false_no_dir_child (fs : FS) (p : FPath)
    (h : fs.hasChild p = false) : ∀ q ∈ fs.dirs, q ≠ [] → q.dropLast ≠ p := by
  intro q hq hne
  simp only [FS.hasChild, decide_eq_false_iff_not, not_or, not_exists, not_and] at h
  intro hdl
  exact (h.2 q hq hdl) hne

theorem removeDir_some (fs fs1 : FS) (p : FPath) (h : fs.removeDir p = some fs1) :
    fs1.files = fs.files ∧ fs1.locked = fs.locked ∧ fs1.unreadable = fs.unreadable
    ∧ fs1.dirs = fs.dirs.filter (fun d => decide (d ≠ p)) := by
  unfold FS.removeDir at h
  by_cases hl : p ∈ fs.locked
  · simp [hl] at h
  · simp only [hl, if_neg, ite_false, Option.some.injEq] at h
    subst h
    exact ⟨rfl, rfl, rfl, rfl⟩

theorem mem_filter_ne {d p : FPath} {l : List FPath} :
    d ∈ l.filter (fun x => decide (x ≠ p)) ↔ d ∈ l ∧ d ≠ p := by
  simp [List.mem_filter]

theorem cleanLoop_spec (fuel : Nat) :
    ∀ (fs : FS) (p : FPath) (fs2 : FS) (evs : List Event) (r : Option Err),
      cleanLoop fs p fuel = (fs2, evs, r) →
      fs2.files = fs.files ∧ fs2.locked = fs.locked ∧ fs2.unreadable = fs.unreadable
      ∧ (∀ d, d ∈ fs2.dirs → d ∈ fs.dirs)
      ∧ (∀ d, d ∈ fs.dirs → d ∉ fs2.dirs →
          d ∉ fs.unreadable
          ∧ (∀ e ∈ fs.files, e.1 ≠ [] → e.1.dropLast ≠ d)
          ∧ (∀ q, q ∈ fs.dirs → q ≠ [] → q.dropLast = d → q ∉ fs2.dirs)) := by
  induction fuel with
  | zero =>
    intro fs p fs2 evs r h
    simp only [cleanLoop, Prod.mk.injEq] at h
    obtain ⟨h1, _, _⟩ := h
    subst h1
    exact ⟨rfl, rfl, rfl, fun d hd => hd, fun d hd hnd => absurd hd hnd⟩
  | succ fuel ih =>
    intro fs p fs2 evs r h
    simp only [cleanLoop] at h
    by_cases hdir : fs.isDir p
    · simp only [hdir, if_true] at h
      by_cases hemp : (fs.readDirIsEmpty p).getD false
      · simp only [hemp, if_true] at h
        cases hrem : fs.removeDir p with
        | none =>
          rw [hrem] at h
          simp only [Prod.mk.injEq] at h
          obtain ⟨h1, _, _⟩ := h
          subst h1
          exact ⟨rfl, rfl, rfl, fun d hd => hd, fun d hd hnd => absurd hd hnd⟩
        | some fs1 =>
          rw [hrem] at h
          obtain ⟨hud, hch⟩ := readDirIsEmpty_getD_true fs p hemp
          obtain ⟨hf1, hl1, hu1, hd1⟩ := removeDir_some fs fs1 p hrem
          by_cases hp : p = []
          · simp only [hp, if_true, Prod.mk.injEq] at h
            obtain ⟨h1, _, _⟩ := h
            subst h1
            refine ⟨hf1, hl1, hu1, ?_, ?_⟩
            · intro d hd
              rw [hd1] at hd
              exact (mem_filter_ne.mp hd).1
            · intro d hd hnd
              have hdp : d = p := by
                by_contra hne
                exact hnd (by rw [hd1]; exact mem_filter_ne.mpr ⟨hd, hne⟩)
              subst hdp
              refine ⟨hud, hasChild_false_no_file_child fs d hch, ?_⟩
              intro q hq hqne hql
              exact absurd hql (hasChild_false_no_dir_child fs d hch q hq hqne)
          · simp only [hp, if_false, ite_false, Prod.mk.injEq] at h
            obtain ⟨h1, _, h3⟩ := h
            cases hrec : cleanLoop fs1 p.dropLast fuel with
            | mk fs2i rest =>
              rw [hrec] at h1
              subst h1
              obtain ⟨a1, a2, a3, a4, a5⟩ := ih fs1 p.dropLast fs2i rest.1 rest.2 (by rw [hrec])
              refine ⟨a1.trans hf1, a2.trans hl1, a3.trans hu1, ?_, ?_⟩
              · intro d hd
                have := a4 d hd
                rw [hd1] at this
                exact (mem_filter_ne.mp this).1
              · intro d hd hnd
                by_cases hdp : d = p
                · subst hdp
                  refine ⟨hud, hasChild_false_no_file_child fs d hch, ?_⟩
                  intro q hq hqne hql
                  exact absurd hql (hasChild_false_no_dir_child fs d hch q hq hqne)
                · have hd1m : d ∈ fs1.dirs := by
                    rw [hd1]; exact mem_filter_ne.mpr ⟨hd, hdp⟩
                  obtain ⟨b1, b2, b3⟩ := a5 d hd1m hnd
                  refine ⟨by rwa [hu1] at b1, ?_, ?_⟩
                  · intro e he
                    exact b2 e (by rwa [hf1]) 
                  · intro q hq hqne hql
                    by_cases hqp : q = p
                    · subst hqp
                      intro hq2
                      have := a4 q hq2
                      rw [hd1] at this
                      exact (mem_filter_ne.mp this).2 rfl
                    · exact b3 q (by rw [hd1]; exact mem_filter_ne.mpr ⟨hq, hqp⟩) hqne hql
      · simp only [hemp, Bool.false_eq_true, if_false, ite_false, Prod.mk.injEq] at h
        obtain ⟨h1, _, _⟩ := h
        subst h1
        exact ⟨rfl, rfl, rfl, fun d hd => hd, fun d hd hnd => absurd hd hnd⟩
    · simp only [hdir, Bool.false_eq_true, if_false, ite_false, Prod.mk.injEq] at h
      obtain ⟨h1, _, _⟩ := h
      subst h1
      exact ⟨rfl, rfl, rfl, fun d hd => hd, fun d hd hnd => absurd hd hnd⟩

/-! Claim C9. -/

/-- C9: pruning never deletes a directory whose contents cannot be listed —
an unreadable directory is treated as non-empty, left in place, and no
error is returned; a missing or non-empty directory likewise stops the walk
unchanged; and on any outcome the pruning touches no file, only removes
directories that existed, and only removes a directory all of whose
original children were themselves removed directories (so a directory is
deleted only once it is empty). -/
theorem C9_pruning_safety (fs : FS) (p : FPath) :
    (p ∈ fs.unreadable → fs.isDir p = true → clean_empty_dirs fs p = (fs, [], none))
    ∧ (fs.isDir p = false → clean_empty_dirs fs p = (fs, [], none))
    ∧ (fs.isDir p = true → fs.hasChild p = true → clean_empty_dirs fs p = (fs, [], none))
    ∧ (∀ fs2 evs r, clean_empty_dirs fs p = (fs2, evs, r) →
        fs2.files = fs.files
        ∧ (∀ d, d ∈ fs2.dirs → d ∈ fs.dirs)
        ∧ (∀ d, d ∈ fs.dirs → d ∉ fs2.dirs →
            d ∉ fs.unreadable
            ∧ (∀ e ∈ fs.files, e.1 ≠ [] → e.1.dropLast ≠ d)
            ∧ (∀ q, q ∈ fs.dirs → q ≠ [] → q.dropLast = d → q ∉ fs2.dirs))) := by
  refine ⟨?_, ?_, ?_, ?_⟩
  · intro hu hdir
    simp [clean_empty_dirs, cleanLoop, hdir, FS.readDirIsEmpty, hu]
  · intro hdir
    simp [clean_empty_dirs, cleanLoop, hdir]
  · intro hdir hch
    by_cases hu : p ∈ fs.unreadable
    · simp [clean_empty_dirs, cleanLoop, hdir, FS.readDirIsEmpty, hu]
    · simp [clean_empty_dirs, cleanLoop, hdir, FS.readDirIsEmpty, hu, hch]
  · intro fs2 evs r h
    obtain ⟨a1, _, _, a4, a5⟩ := cleanLoop_spec (p.length + 1) fs p fs2 evs r h
    exact ⟨a1, a4, a5⟩

/-- C9 witness: the unreadable directory `/a` is left in place without an
error. -/
theorem C9_pruning_safety_witness :
    clean_empty_dirs unreadFS ["a"] = (unreadFS, [], none) :=
  (C9_pruning_safety unreadFS ["a"]).1 (by decide) (by decide)

/-! Removal-loop lemmas. -/

theorem uninstall_step_logs (st : State) (p : FPath) :
    (uninstall_step st p).1.logs = st.logs := by
  unfold uninstall_step
  by_cases h : st.fs.pathExists p = true
  · simp only [h, if_true]
    cases hr : st.fs.removeFile p <;> simp
  · simp [h]

theorem runRemovals_logs (l : List FPath) : ∀ st : State,
    (runRemovals st l).1.logs = st.logs := by
  induction l with
  | nil => intro st; rfl
  | cons p rest ih =>
    intro st
    simp only [runRemovals]
    cases h : uninstall_step st p with
    | mk st1 r =>
      have hl : st1.logs = st.logs := by
        have hh := uninstall_step_logs st p
        rw [h] at hh
        exact hh
      cases r with
      | none => simpa [hl] using ih st1
      | some er => simpa using hl

theorem runRemovals_append (l1 l2 : List FPath) : ∀ st : State,
    runRemovals st (l1 ++ l2) =
      match runRemovals st l1 with
      | (st1, none) => runRemovals st1 l2
      | (st1, some er) => (st1, some er) := by
  induction l1 with
  | nil => intro st; rfl
  | cons p rest ih =>
    intro st
    simp only [List.cons_append, runRemovals]
    cases h : uninstall_step st p with
    | mk st1 r =>
      cases r with
      | none => exact ih st1
      | some er => rfl

/-! Claim C5. -/

/-- C5: the Reverser processes recorded paths in manifest order; a listed
path absent from disk is logged as missing and the loop continues; a failed
deletion of a present listed path aborts the reversal at once with an I/O
error naming that path, in the state reached so far — the remaining listed
paths are untouched and the manifest entry is still present (the manifest
is only deleted after the loop completes). -/
theorem C5_reverser_deletion (env : Env) (package pfx : String) (st st1 : State)
    (entries l1 l2 : List FPath) (p : FPath) :
    ((needs_root pfx && !env.is_root) = false →
      confirm_answer env.uninstall_answer = true →
      logsGet st.logs (get_package_name package) = some entries →
      entries = l1 ++ p :: l2 →
      runRemovals st l1 = (st1, none) →
      st1.fs.pathExists p = true →
      st1.fs.removeFile p = none →
      uninstall_files env package pfx st = (st1, some (Err.ioError p))
      ∧ logsGet st1.logs (get_package_name package) = some entries)
    ∧ (∀ st2 : State, ∀ q : FPath, st2.fs.pathExists q = false →
        uninstall_step st2 q =
          ({ st2 with events := st2.events ++ [Event.fileMissing q] }, none)
        ∧ runRemovals st2 (q :: l2) =
            runRemovals { st2 with events := st2.events ++ [Event.fileMissing q] } l2) := by
  constructor
  · intro hg hc hl he hr hex hrm
    have hstep : uninstall_step st1 p = (st1, some (Err.ioError p)) := by
      simp [uninstall_step, hex, hrm]
    have hloop : runRemovals st entries = (st1, some (Err.ioError p)) := by
      rw [he, runRemovals_append, hr]
      simp only [runRemovals, hstep]
    have hlogs : st1.logs = st.logs := by
      have hh := runRemovals_logs l1 st
      rw [hr] at hh
      exact hh
    refine ⟨?_, by rw [hlogs, hl]⟩
    simp only [uninstall_files, hg, Bool.false_eq_true, if_false, ite_false,
      confirm_uninstallation, hc, Bool.not_true, hl, hloop]
  · intro st2 q hq
    have hstep : uninstall_step st2 q =
        ({ st2 with events := st2.events ++ [Event.fileMissing q] }, none) := by
      simp [uninstall_step, hq]
    exact ⟨hstep, by simp only [runRemovals, hstep]⟩

/-- C5 witness: removal of `/d/a` succeeds, the locked `/d/b` aborts the
reversal with an I/O error naming it, `/d/c` stays on disk and the manifest
of package `x` is intact. -/
theorem C5_reverser_deletion_witness :
    uninstall_files witEnv "x-1" "/p" lockSt = (lockSt1, some (Err.ioError ["d", "b"]))
    ∧ logsGet lockSt1.logs "x" = some [["d", "a"], ["d", "b"], ["d", "c"]]
    ∧ lookupFile lockSt1.fs.files ["d", "c"] = some 3 := by
  have h := (C5_reverser_deletion witEnv "x-1" "/p" lockSt lockSt1
      [["d", "a"], ["d", "b"], ["d", "c"]] [["d", "a"]] [["d", "c"]] ["d", "b"]).1
    (by decide) (by decide) (by decide) (by decide) (by decide) (by decide) (by decide)
  exact ⟨h.1, h.2, by decide⟩

/-! Deployer loop interface lemmas. -/

theorem writeFile_some (fs fs2 : FS) (p : FPath) (c : Nat)
    (h : fs.writeFile p c = some fs2) : fs2.files = (p, c) :: fs.files := by
  unfold FS.writeFile at h
  by_cases hc : (p.dropLast.isEmpty || fs.isDir p.dropLast) = true
  · rw [if_pos hc] at h
    cases h
    rfl
  · rw [if_neg hc] at h
    cases h

theorem goodStep_bin (sniff : Nat → Option String) (src dbin : FPath) (k : String) :
    GoodStep k (install_bin_step sniff src dbin k) := by
  intro st e
  cases hs : sniff e.2 with
  | none =>
    left
    exact ⟨[Event.skipNonElf e.1], rfl, by simp [install_bin_step, hs]⟩
  | some m =>
    by_cases hm : mimeIsExec m = true
    · by_cases hx : st.fs.pathExists (dbin ++ e.1.drop src.length) = true
      · right; left
        exact ⟨dbin ++ e.1.drop src.length, by simp [install_bin_step, hs, hm, hx]⟩
      · cases hw : st.fs.writeFile (dbin ++ e.1.drop src.length) e.2 with
        | some fs2 =>
          right; right; left
          exact ⟨dbin ++ e.1.drop src.length, e.2, fs2, writeFile_some _ _ _ _ hw,
            by simp [install_bin_step, hs, hm, hx, hw]⟩
        | none =>
          right; right; right
          exact ⟨dbin ++ e.1.drop src.length, by simp [install_bin_step, hs, hm, hx, hw]⟩
    · left
      exact ⟨[Event.skipNonElf e.1], rfl, by simp [install_bin_step, hs, hm]⟩

theorem goodStep_desktop (src dd : FPath) (k : String) :
    GoodStep k (install_desktop_step src dd k) := by
  intro st e
  by_cases hd : extMatches e.1 "desktop" = true
  · by_cases hx : st.fs.pathExists (dd ++ e.1.drop src.length) = true
    · right; left
      exact ⟨dd ++ e.1.drop src.length, by simp [install_desktop_step, hd, hx]⟩
    · cases hw : st.fs.writeFile (dd ++ e.1.drop src.length) e.2 with
      | some fs2 =>
        right; right; left
        exact ⟨dd ++ e.1.drop src.length, e.2, fs2, writeFile_some _ _ _ _ hw,
          by simp [install_desktop_step, hd, hx, hw]⟩
      | none =>
        right; right; right
        exact ⟨dd ++ e.1.drop src.length, by simp [install_desktop_step, hd, hx, hw]⟩
  · left
    exact ⟨[], rfl, by simp [install_desktop_step, hd]⟩

theorem goodStep_icon (sniff : Nat → Option String) (src di : FPath) (k : String) :
    GoodStep k (install_icon_step sniff src di k) := by
  intro st e
  by_cases he : (extMatches e.1 "png" || extMatches e.1 "svg") = true
  · by_cases hv : is_valid_icon sniff e.2 = true
    · by_cases hx : st.fs.pathExists (di ++ e.1.drop src.length) = true
      · right; left
        exact ⟨di ++ e.1.drop src.length, by simp [install_icon_step, he, hv, hx]⟩
      · right; right; left
        refine ⟨di ++ e.1.drop src.length, e.2,
          { st.fs.createDirAll (di ++ e.1.drop src.length).dropLast with
              files := (di ++ e.1.drop src.length, e.2) :: st.fs.files }, rfl, ?_⟩
        simp [install_icon_step, he, hv, hx, createDirAll_writeFile]
    · left
      exact ⟨[Event.skipInvalidIcon e.1], rfl, by simp [install_icon_step, he, hv]⟩
  · left
    exact ⟨[], rfl, by simp [install_icon_step, he]⟩

/-! Manifest store lemmas. -/

theorem logsGet_logsAppend (k : String) (d : FPath) :
    ∀ (logs : Logs) (acc : List FPath), logsGet logs k = some acc →
      logsGet (logsAppend logs k d) k = some (acc ++ [d]) := by
  intro logs
  induction logs with
  | nil =>
    intro acc h
    simp [logsGet] at h
  | cons e rest ih =>
    intro acc h
    simp only [logsGet] at h
    simp only [logsAppend, List.map_cons]
    by_cases hk : e.1 = k
    · rw [if_pos hk] at h
      rw [if_pos hk]
      simp only [logsGet, hk, if_pos]
      rw [Option.some.injEq] at h
      rw [h]
    · rw [if_neg hk] at h
      rw [if_neg hk]
      simp only [logsGet, hk, if_neg]
      exact ih acc h

theorem logsGet_logsSet (logs : Logs) (k : String) (v : List FPath) :
    logsGet (logsSet logs k v) k = some v := by
  simp [logsSet, logsGet]

theorem logsGet_logsErase (logs : Logs) (k : String) :
    logsGet (logsErase logs k) k = none := by
  induction logs with
  | nil => rfl
  | cons e rest ih =>
    simp only [logsErase, List.filter]
    by_cases hk : e.1 = k
    · simpa [logsErase, hk] using ih
    · simpa [logsGet, logsErase, hk] using ih

theorem all_skip_no_copied (block : List Event) (h : block.all isSkipEvent = true)
    (p : FPath) : Event.copied p ∉ block := by
  intro hm
  have hh := List.all_eq_true.mp h _ hm
  simp [isSkipEvent] at hh

theorem before_lift (pre delta : List Event) (p : FPath)
    (h : ∃ m1 m2, delta = m1 ++ m2 ∧ Event.recorded p ∈ m1 ∧ Event.copied p ∈ m2) :
    ∃ m1 m2, pre ++ delta = m1 ++ m2 ∧ Event.recorded p ∈ m1 ∧ Event.copied p ∈ m2 := by
  obtain ⟨m1, m2, he, h1, h2⟩ := h
  exact ⟨pre ++ m1, m2, by rw [he, List.append_assoc], List.mem_append_right _ h1, h2⟩

/-- Master invariant of the three install loops: over a `GoodStep` body the
loop appends an event block `delta` and a manifest block `recs` such that
every copy event names a manifest entry recorded earlier in the trace,
files outside `recs` are untouched, and on success every manifest entry was
either copied or skipped over a pre-existing destination. -/
theorem runSteps_spec (k : String) (step : State → FPath × Nat → State × Option Err)
    (hstep : GoodStep k step) (l : List (FPath × Nat)) :
    ∀ (st : State) (acc : List FPath), logsGet st.logs k = some acc →
    ∀ st2 r, runSteps step st l = (st2, r) →
    ∃ delta recs,
      st2.events = st.events ++ delta
      ∧ logsGet st2.logs k = some (acc ++ recs)
      ∧ (∀ q, q ∉ recs → lookupFile st2.fs.files q = lookupFile st.fs.files q)
      ∧ (∀ p, Event.copied p ∈ delta →
           p ∈ recs ∧ ∃ m1 m2, delta = m1 ++ m2 ∧ Event.recorded p ∈ m1 ∧ Event.copied p ∈ m2)
      ∧ (r = none → ∀ p ∈ recs, Event.copied p ∈ delta ∨ Event.warnExists p ∈ delta) := by
  induction l with
  | nil =>
    intro st acc hacc st2 r h
    simp only [runSteps, Prod.mk.injEq] at h
    obtain ⟨h1, h2⟩ := h
    subst h1
    subst h2
    refine ⟨[], [], by simp, by simpa using hacc, fun q _ => rfl, ?_, ?_⟩
    · intro p hp
      simp at hp
    · intro _ p hp
      simp at hp
  | cons e rest ih =>
    intro st acc hacc st2 r h
    simp only [runSteps] at h
    rcases hstep st e with ⟨block, hblock, heq⟩ | ⟨d, heq⟩ | ⟨d, c, fs2, hfs2, heq⟩ | ⟨d, heq⟩
    · -- skip block
      rw [heq] at h
      obtain ⟨delta, recs, b1, b2, b3, b4, b5⟩ :=
        ih { st with events := st.events ++ block } acc hacc st2 r h
      refine ⟨block ++ delta, recs, ?_, b2, b3, ?_, ?_⟩
      · rw [b1]
        simp [List.append_assoc]
      · intro p hp
        rcases List.mem_append.mp hp with hpb | hpd
        · exact absurd hpb (all_skip_no_copied block hblock p)
        · obtain ⟨hrec, hsplit⟩ := b4 p hpd
          exact ⟨hrec, before_lift block delta p hsplit⟩
      · intro hr p hp
        rcases b5 hr p hp with hc | hw
        · exact Or.inl (List.mem_append_right block hc)
        · exact Or.inr (List.mem_append_right block hw)
    · -- record then warn
      rw [heq] at h
      have haccB : logsGet (logsAppend st.logs k d) k = some (acc ++ [d]) :=
        logsGet_logsAppend k d st.logs acc hacc
      obtain ⟨delta, recs, b1, b2, b3, b4, b5⟩ := ih _ (acc ++ [d]) haccB st2 r h
      refine ⟨[Event.recorded d, Event.warnExists d] ++ delta, d :: recs, ?_, ?_, ?_, ?_, ?_⟩
      · rw [b1]
        simp [List.append_assoc]
      · rw [b2]
        simp
      · intro q hq
        have hqr : q ∉ recs := fun hh => hq (List.mem_cons_of_mem d hh)
        exact b3 q hqr
      · intro p hp
        rcases List.mem_append.mp hp with hpb | hpd
        · simp at hpb
        · obtain ⟨hrec, hsplit⟩ := b4 p hpd
          exact ⟨List.mem_cons_of_mem d hrec, before_lift _ delta p hsplit⟩
      · intro hr p hp
        rcases List.mem_cons.mp hp with hpd | hpr
        · subst hpd
          exact Or.inr (List.mem_append_left _ (by simp))
        · rcases b5 hr p hpr with hc | hw
          · exact Or.inl (List.mem_append_right _ hc)
          · exact Or.inr (List.mem_append_right _ hw)
    · -- record then copy
      rw [heq] at h
      have haccB : logsGet (logsAppend st.logs k d) k = some (acc ++ [d]) :=
        logsGet_logsAppend k d st.logs acc hacc
      obtain ⟨delta, recs, b1, b2, b3, b4, b5⟩ := ih _ (acc ++ [d]) haccB st2 r h
      refine ⟨[Event.recorded d, Event.copied d] ++ delta, d :: recs, ?_, ?_, ?_, ?_, ?_⟩
      · rw [b1]
        simp [List.append_assoc]
      · rw [b2]
        simp
      · intro q hq
        have hqd : q ≠ d := fun hh => hq (hh ▸ List.mem_cons_self d recs)
        have hqr : q ∉ recs := fun hh => hq (List.mem_cons_of_mem d hh)
        rw [b3 q hqr]
        show lookupFile fs2.files q = lookupFile st.fs.files q
        rw [hfs2]
        simp only [lookupFile]
        rw [if_neg (fun hh => hqd hh.symm)]
      · intro p hp
        rcases List.mem_append.mp hp with hpb | hpd
        · have hpd2 : p = d := by
            rcases List.mem_cons.mp hpb with h1 | h1
            · cases h1
            · simp at h1
              exact h1
          subst hpd2
          refine ⟨List.mem_cons_self p recs, [Event.recorded p],
            [Event.copied p] ++ delta, by simp, by simp, by simp⟩
        · obtain ⟨hrec, hsplit⟩ := b4 p hpd
          exact ⟨List.mem_cons_of_mem d hrec, before_lift _ delta p hsplit⟩
      · intro hr p hp
        rcases List.mem_cons.mp hp with hpd | hpr
        · subst hpd
          exact Or.inl (List.mem_append_left _ (by simp))
        · rcases b5 hr p hpr with hc | hw
          · exact Or.inl (List.mem_append_right _ hc)
          · exact Or.inr (List.mem_append_right _ hw)
    · -- record then failed copy
      rw [heq] at h
      simp only [Prod.mk.injEq] at h
      obtain ⟨h1, h2⟩ := h
      subst h1
      subst h2
      refine ⟨[Event.recorded d], [d], by simp, ?_, ?_, ?_, ?_⟩
      · exact logsGet_logsAppend k d st.logs acc hacc
      · intro q hq
        rfl
      · intro p hp
        simp at hp
      · intro hr
        cases hr

theorem before_lift_right (delta post : List Event) (p : FPath)
    (h : ∃ m1 m2, delta = m1 ++ m2 ∧ Event.recorded p ∈ m1 ∧ Event.copied p ∈ m2) :
    ∃ m1 m2, delta ++ post = m1 ++ m2 ∧ Event.recorded p ∈ m1 ∧ Event.copied p ∈ m2 := by
  obtain ⟨m1, m2, he, h1, h2⟩ := h
  exact ⟨m1, m2 ++ post, by rw [he, List.append_assoc], h1, List.mem_append_left _ h2⟩

/-- One category phase of install_files: nothing happens when the source
directory is absent, otherwise the destination root is ensured and the walk
is processed by a `GoodStep` body. -/
theorem phase_spec (k : String) (step : State → FPath × Nat → State × Option Err)
    (hstep : GoodStep k step) (cond : Bool) (dd : FPath) (wl : List (FPath × Nat))
    (stX stY : State) (rY : Option Err) (acc : List FPath)
    (hacc : logsGet stX.logs k = some acc)
    (hp : (if cond then
             runSteps step { stX with fs := stX.fs.createDirAll dd } wl
           else (stX, none)) = (stY, rY)) :
    ∃ delta recs,
      stY.events = stX.events ++ delta
      ∧ logsGet stY.logs k = some (acc ++ recs)
      ∧ (∀ q, q ∉ recs → lookupFile stY.fs.files q = lookupFile stX.fs.files q)
      ∧ (∀ p, Event.copied p ∈ delta →
           p ∈ recs ∧ ∃ m1 m2, delta = m1 ++ m2 ∧ Event.recorded p ∈ m1 ∧ Event.copied p ∈ m2)
      ∧ (rY = none → ∀ p ∈ recs, Event.copied p ∈ delta ∨ Event.warnExists p ∈ delta) := by
  by_cases hc : cond = true
  · rw [if_pos hc] at hp
    obtain ⟨delta, recs, b1, b2, b3, b4, b5⟩ :=
      runSteps_spec k step hstep wl { stX with fs := stX.fs.createDirAll dd } acc hacc stY rY hp
    exact ⟨delta, recs, b1, b2, b3, b4, b5⟩
  · rw [if_neg hc] at hp
    simp only [Prod.mk.injEq] at hp
    obtain ⟨h1, h2⟩ := hp
    subst h1
    subst h2
    refine ⟨[], [], by simp, by simpa using hacc, fun q _ => rfl, ?_, ?_⟩
    · intro p hp2
      simp at hp2
    · intro _ p hp2
      simp at hp2

/-- Specification of a successful install: the manifest of the package
holds exactly the recorded destinations; every copy event names a manifest
entry and is preceded by its record event; files outside the manifest are
untouched; and every manifest entry was copied or collision-skipped. -/
theorem install_files_spec (env : Env) (sniff : Nat → Option String) (temp : FPath)
    (pfx package : String) (st st2 : State)
    (h : install_files env sniff temp pfx package st = (st2, none)) :
    ∃ delta entries,
      st2.events = st.events ++ delta
      ∧ logsGet st2.logs (get_package_name package) = some entries
      ∧ (∀ q, q ∉ entries → lookupFile st2.fs.files q = lookupFile st.fs.files q)
      ∧ (∀ p, Event.copied p ∈ delta →
           p ∈ entries ∧ ∃ m1 m2, delta = m1 ++ m2 ∧ Event.recorded p ∈ m1 ∧ Event.copied p ∈ m2)
      ∧ (∀ p ∈ entries, Event.copied p ∈ delta ∨ Event.warnExists p ∈ delta) := by
  simp only [install_files] at h
  split at h
  · simp at h
  split at h
  · simp at h
  split at h
  · simp at h
  split at h
  · simp at h
  next st1 hp1 =>
  split at h
  · simp at h
  next stm hp2 =>
  obtain ⟨d1, r1, a1, a2, a3, a4, a5⟩ :=
    phase_spec (get_package_name package) _
      (goodStep_bin sniff (temp ++ ["usr", "bin"]) (dest_bin_dir pfx) (get_package_name package))
      _ _ _ _ st1 none []
      (logsGet_logsSet st.logs (get_package_name package) []) hp1
  obtain ⟨d2, r2, b1, b2, b3, b4, b5⟩ :=
    phase_spec (get_package_name package) _
      (goodStep_desktop (temp ++ ["usr", "share", "applications"])
        (dest_desktop_dir env pfx) (get_package_name package))
      _ _ _ _ stm none ([] ++ r1) a2 hp2
  obtain ⟨d3, r3, c1, c2, c3, c4, c5⟩ :=
    phase_spec (get_package_name package) _
      (goodStep_icon sniff (temp ++ ["usr", "share", "icons"])
        (dest_icon_dir env pfx) (get_package_name package))
      _ _ _ _ st2 none (([] ++ r1) ++ r2) b2 h
  refine ⟨d1 ++ d2 ++ d3, r1 ++ r2 ++ r3, ?_, ?_, ?_, ?_, ?_⟩
  · rw [c1, b1, a1]
    simp [List.append_assoc]
  · rw [c2]
    simp [List.append_assoc]
  · intro q hq
    simp only [List.mem_append, not_or] at hq
    rw [c3 q hq.2, b3 q hq.1.2, a3 q hq.1.1]
  · intro p hp
    simp only [List.mem_append] at hp
    rcases hp with (hp | hp) | hp
    · obtain ⟨hr, hs⟩ := a4 p hp
      refine ⟨by simp [hr], ?_⟩
      rw [List.append_assoc]
      exact before_lift_right d1 (d2 ++ d3) p hs
    · obtain ⟨hr, hs⟩ := b4 p hp
      refine ⟨by simp [hr], ?_⟩
      rw [List.append_assoc]
      have := before_lift d1 (d2 ++ d3) p (before_lift_right d2 d3 p hs)
      simpa [List.append_assoc] using this
    · obtain ⟨hr, hs⟩ := c4 p hp
      refine ⟨by simp [hr], ?_⟩
      exact before_lift (d1 ++ d2) d3 p hs
  · intro p hp
    simp only [List.mem_append] at hp
    rcases hp with (hp | hp) | hp
    · rcases a5 rfl p hp with hc | hw
      · exact Or.inl (by simp [hc])
      · exact Or.inr (by simp [hw])
    · rcases b5 rfl p hp with hc | hw
      · exact Or.inl (by simp [hc])
      · exact Or.inr (by simp [hw])
    · rcases c5 rfl p hp with hc | hw
      · exact Or.inl (by simp [hc])
      · exact Or.inr (by simp [hw])

/-! Removal characterization lemmas. -/

theorem lookupFile_filter_self (files : List (FPath × Nat)) (p : FPath) :
    lookupFile (files.filter (fun e => decide (e.1 ≠ p))) p = none := by
  induction files with
  | nil => rfl
  | cons e rest ih =>
    by_cases hp : e.1 = p
    · simpa [List.filter, hp] using ih
    · simpa [List.filter, hp, lookupFile] using ih

theorem lookupFile_filter_ne (files : List (FPath × Nat)) (p q : FPath) (h : q ≠ p) :
    lookupFile (files.filter (fun e => decide (e.1 ≠ p))) q = lookupFile files q := by
  induction files with
  | nil => rfl
  | cons e rest ih =>
    rw [List.filter_cons]
    by_cases hp : e.1 = p
    · rw [if_neg (by simp [hp])]
      have hne : ¬ e.1 = q := by
        rw [hp]
        exact fun hh => h hh.symm
      rw [ih]
      simp only [lookupFile]
      rw [if_neg hne]
    · rw [if_pos (by simp [hp])]
      simp only [lookupFile]
      by_cases hq : e.1 = q
      · rw [if_pos hq, if_pos hq]
      · rw [if_neg hq, if_neg hq]
        exact ih

theorem removeFile_some (fs fs1 : FS) (p : FPath) (h : fs.removeFile p = some fs1) :
    fs1.files = fs.files.filter (fun e => decide (e.1 ≠ p))
    ∧ fs1.dirs = fs.dirs ∧ fs1.locked = fs.locked ∧ fs1.unreadable = fs.unreadable := by
  unfold FS.removeFile at h
  split at h
  · cases h
  · injection h with h1
    subst h1
    exact ⟨rfl, rfl, rfl, rfl⟩

theorem pathExists_false_lookup (fs : FS) (p : FPath) (h : fs.pathExists p = false) :
    lookupFile fs.files p = none := by
  unfold FS.pathExists FS.fileExists at h
  rcases Bool.or_eq_false_iff.mp h with ⟨h1, _⟩
  cases hl : lookupFile fs.files p with
  | none => rfl
  | some c =>
    rw [hl] at h1
    cases h1

/-- The removal loop of uninstall_files: directories are untouched; files
outside the processed list are untouched; absent files stay absent; and on
success every listed path is gone. -/
theorem runRemovals_files (l : List FPath) : ∀ (st st2 : State) (r : Option Err),
    runRemovals st l = (st2, r) →
      st2.fs.dirs = st.fs.dirs ∧ st2.fs.locked = st.fs.locked
      ∧ st2.fs.unreadable = st.fs.unreadable
      ∧ (∀ q, q ∉ l → lookupFile st2.fs.files q = lookupFile st.fs.files q)
      ∧ (∀ q, lookupFile st.fs.files q = none → lookupFile st2.fs.files q = none)
      ∧ (r = none → ∀ q ∈ l, lookupFile st2.fs.files q = none) := by
  induction l with
  | nil =>
    intro st st2 r h
    simp only [runRemovals, Prod.mk.injEq] at h
    obtain ⟨h1, h2⟩ := h
    subst h1
    subst h2
    exact ⟨rfl, rfl, rfl, fun q _ => rfl, fun q hq => hq,
      fun _ q hq => absurd hq (List.not_mem_nil q)⟩
  | cons p rest ih =>
    intro st st2 r h
    simp only [runRemovals] at h
    unfold uninstall_step at h
    by_cases hex : st.fs.pathExists p = true
    · rw [if_pos hex] at h
      cases hrm : st.fs.removeFile p with
      | some fs1 =>
        rw [hrm] at h
        obtain ⟨hf, hd, hl, hu⟩ := removeFile_some st.fs fs1 p hrm
        obtain ⟨i1, i2, i3, i4, i5, i6⟩ := ih _ st2 r h
        refine ⟨i1.trans hd, i2.trans hl, i3.trans hu, ?_, ?_, ?_⟩
        · intro q hq
          have hqp : q ≠ p := fun hh => hq (hh ▸ List.mem_cons_self p rest)
          have hqr : q ∉ rest := fun hh => hq (List.mem_cons_of_mem p hh)
          rw [i4 q hqr]
          show lookupFile fs1.files q = _
          rw [hf]
          exact lookupFile_filter_ne st.fs.files p q hqp
        · intro q hq
          apply i5
          show lookupFile fs1.files q = none
          rw [hf]
          by_cases hqp : q = p
          · subst hqp
            exact lookupFile_filter_self _ _
          · rw [lookupFile_filter_ne _ _ _ hqp]
            exact hq
        · intro hr q hq
          rcases List.mem_cons.mp hq with hh | hh
          · subst hh
            apply i5
            show lookupFile fs1.files q = none
            rw [hf]
            exact lookupFile_filter_self _ _
          · exact i6 hr q hh
      | none =>
        rw [hrm] at h
        simp only [Prod.mk.injEq] at h
        obtain ⟨h1, h2⟩ := h
        subst h1
        refine ⟨rfl, rfl, rfl, fun q _ => rfl, fun q hq => hq, ?_⟩
        intro hr
        rw [← h2] at hr
        cases hr
    · rw [if_neg hex] at h
      obtain ⟨i1, i2, i3, i4, i5, i6⟩ := ih _ st2 r h
      refine ⟨i1, i2, i3, ?_, i5, ?_⟩
      · intro q hq
        exact i4 q (fun hh => hq (List.mem_cons_of_mem p hh))
      · intro hr q hq
        rcases List.mem_cons.mp hq with hh | hh
        · subst hh
          apply i5
          exact pathExists_false_lookup st.fs q (by simpa using hex)
        · exact i6 hr q hh

/-- Specification of a successful uninstall: the manifest of the package
existed beforehand; every path it listed is gone from disk afterwards;
files it did not list are untouched; and the manifest itself is removed. -/
theorem uninstall_files_spec (env : Env) (package pfx : String) (st st2 : State)
    (h : uninstall_files env package pfx st = (st2, none)) :
    ∃ entries, logsGet st.logs (get_package_name package) = some entries
      ∧ (∀ q, q ∉ entries → lookupFile st2.fs.files q = lookupFile st.fs.files q)
      ∧ (∀ q ∈ entries, lookupFile st2.fs.files q = none)
      ∧ logsGet st2.logs (get_package_name package) = none := by
  simp only [uninstall_files] at h
  split at h
  · simp at h
  split at h
  · simp at h
  split at h
  · simp at h
  next entries hle =>
  split at h
  · simp at h
  next st1 hrr =>
  split at h
  · simp at h
  next fs1 ev1 hc1 =>
  split at h
  · simp at h
  next fs2 ev2 hc2 =>
  split at h
  · simp at h
  next fs3 ev3 hc3 =>
  simp only [Prod.mk.injEq] at h
  obtain ⟨h1, _⟩ := h
  subst h1
  obtain ⟨i1, i2, i3, i4, i5, i6⟩ := runRemovals_files entries st st1 none hrr
  have hcf1 : fs1.files = st1.fs.files := by
    have hh := cleanLoop_spec ((dest_bin_dir pfx).length + 1) _ _ fs1 ev1 none hc1
    exact hh.1
  have hcf2 : fs2.files = fs1.files := by
    have hh := cleanLoop_spec ((dest_desktop_dir env pfx).length + 1) _ _ fs2 ev2 none hc2
    exact hh.1
  have hcf3 : fs3.files = fs2.files := by
    have hh := cleanLoop_spec ((dest_icon_dir env pfx).length + 1) _ _ fs3 ev3 none hc3
    exact hh.1
  have hfiles : fs3.files = st1.fs.files := by rw [hcf3, hcf2, hcf1]
  refine ⟨entries, hle, ?_, ?_, ?_⟩
  · intro q hq
    show lookupFile fs3.files q = _
    rw [hfiles]
    exact i4 q hq
  · intro q hq
    show lookupFile fs3.files q = none
    rw [hfiles]
    exact i6 rfl q hq
  · show logsGet (logsErase st1.logs (get_package_name package)) _ = none
    exact logsGet_logsErase st1.logs (get_package_name package)

/-! Claim C1. -/

/-- C1 counterexample: a successful install over a pre-existing destination
file produces a manifest listing a path that the Deployer never wrote
during that install — no copy event is emitted for it and the pre-existing
content (42, not the source content 7) is still in place. -/
theorem C1_counterexample :
    collideRun1.2 = none
    ∧ logsGet collideRun1.1.logs "foo" = some [["tmp", "testroot", "bin", "foo"]]
    ∧ Event.copied ["tmp", "testroot", "bin", "foo"] ∉ collideRun1.1.events
    ∧ lookupFile collideSt.fs.files ["tmp", "testroot", "bin", "foo"] = some 42
    ∧ lookupFile collideRun1.1.fs.files ["tmp", "testroot", "bin", "foo"] = some 42
    ∧ lookupFile collideSt.fs.files ["t", "usr", "bin", "foo"] = some 7 := by
  decide

/-- C1 (amended): after every successful install, every path the Deployer
wrote (every copy event) appears in that package's manifest with the
manifest record event occurring before the copy event in the trace; and
conversely every manifest entry was either copied during the install or
skipped because the destination already existed. -/
theorem C1_manifest_accuracy (env : Env) (sniff : Nat → Option String) (temp : FPath)
    (pfx package : String) (st st2 : State)
    (hev : st.events = [])
    (h : install_files env sniff temp pfx package st = (st2, none)) :
    ∃ entries, logsGet st2.logs (get_package_name package) = some entries
      ∧ (∀ p, Event.copied p ∈ st2.events →
           p ∈ entries ∧ ∃ m1 m2, st2.events = m1 ++ m2
             ∧ Event.recorded p ∈ m1 ∧ Event.copied p ∈ m2)
      ∧ (∀ p ∈ entries, Event.copied p ∈ st2.events ∨ Event.warnExists p ∈ st2.events) := by
  obtain ⟨delta, entries, a1, a2, a3, a4, a5⟩ :=
    install_files_spec env sniff temp pfx package st st2 h
  rw [hev] at a1
  simp only [List.nil_append] at a1
  refine ⟨entries, a2, ?_, ?_⟩
  · intro p hp
    rw [a1] at hp ⊢
    exact a4 p hp
  · intro p hp
    rw [a1]
    exact a5 p hp

/-- C1 witness: the amended statement evaluated on the concrete collision
install. -/
theorem C1_manifest_accuracy_witness :
    ∃ entries,
      logsGet collideRun1.1.logs (get_package_name "foo-1.0-1-x86_64.pkg.tar.zst")
        = some entries
      ∧ (∀ p, Event.copied p ∈ collideRun1.1.events →
           p ∈ entries ∧ ∃ m1 m2, collideRun1.1.events = m1 ++ m2
             ∧ Event.recorded p ∈ m1 ∧ Event.copied p ∈ m2)
      ∧ (∀ p ∈ entries, Event.copied p ∈ collideRun1.1.events
           ∨ Event.warnExists p ∈ collideRun1.1.events) :=
  C1_manifest_accuracy witEnv witSniff ["t"] "/tmp/testroot"
    "foo-1.0-1-x86_64.pkg.tar.zst" collideSt collideRun1.1 (by decide) (by decide)

/-! Claim C2. -/

/-- C2 counterexample: an install whose destination already held an
unrelated file, followed by a successful uninstall, deletes that
pre-existing unrelated file — and also removes the pre-existing (now empty)
destination directory — so the state under the destination roots is not
identical to the state before the install. -/
theorem C2_counterexample :
    collideRun1.2 = none ∧ collideRun2.2 = none
    ∧ lookupFile collideSt.fs.files ["tmp", "testroot", "bin", "foo"] = some 42
    ∧ lookupFile collideRun2.1.fs.files ["tmp", "testroot", "bin", "foo"] = none
    ∧ collideSt.fs.isDir ["tmp", "testroot", "bin"] = true
    ∧ collideRun2.1.fs.isDir ["tmp", "testroot", "bin"] = false := by
  decide

/-- C2 (amended): provided no path recorded in the install's manifest
already existed as a file before the install, a successful install followed
by a successful uninstall restores every file under every root to its
pre-install content (pre-existing unrelated files are untouched) and
removes the package's manifest; directories are only guaranteed up to
pruning of empty ones. -/
theorem C2_round_trip (env : Env) (sniff : Nat → Option String) (temp : FPath)
    (pfx package : String) (st0 st1 st2 : State) (entries : List FPath)
    (h1 : install_files env sniff temp pfx package st0 = (st1, none))
    (h2 : uninstall_files env package pfx st1 = (st2, none))
    (hent : logsGet st1.logs (get_package_name package) = some entries)
    (hnc : ∀ p ∈ entries, lookupFile st0.fs.files p = none) :
    (∀ q, lookupFile st2.fs.files q = lookupFile st0.fs.files q)
    ∧ logsGet st2.logs (get_package_name package) = none := by
  obtain ⟨delta, entries2, a1, a2, a3, a4, a5⟩ :=
    install_files_spec env sniff temp pfx package st0 st1 h1
  have he2 : entries2 = entries := by
    rw [a2] at hent
    exact Option.some.inj hent
  subst he2
  obtain ⟨entriesU, u1, u2, u3, u4⟩ := uninstall_files_spec env package pfx st1 st2 h2
  have heU : entriesU = entries2 := by
    rw [u1] at hent
    exact Option.some.inj hent
  subst heU
  refine ⟨?_, u4⟩
  intro q
  by_cases hq : q ∈ entriesU
  · rw [u3 q hq, hnc q hq]
  · rw [u2 q hq, a3 q hq]

/-- C2 witness: the amended round trip evaluated on the collision-free
scenario — the file map is restored exactly and the manifest is gone. -/
theorem C2_round_trip_witness :
    (∀ q, lookupFile cleanRun2.1.fs.files q = lookupFile cleanSt.fs.files q)
    ∧ logsGet cleanRun2.1.logs (get_package_name "foo-1.0-1-x86_64.pkg.tar.zst") = none :=
  C2_round_trip witEnv witSniff ["t"] "/tmp/testroot" "foo-1.0-1-x86_64.pkg.tar.zst"
    cleanSt cleanRun1.1 cleanRun2.1 [["tmp", "testroot", "bin", "foo"]]
    (by decide) (by decide) (by decide) (by decide)
